import Mathlib

/-!
Shallow embedding of the push-to-talk dictation utility
(`alstonhsiao/windows_Whisper`).  The definitions below are translated
from `approach-1-python-uv/main.py`, `approach-3-python-exe/main.py` and
`approach-4-gemini-windows/main.py`: the in-memory audio recorder and its
`stop` threshold logic, the hotkey-driven controller guard, the
regex-based text corrector, the transcription-response handling and the
HTTP-error classification of the release worker.
-/

namespace WWhisper

/-- One PCM sample block delivered by the PortAudio callback
(`indata.copy()` in `AudioRecorder._callback`); samples are 16-bit signed
values, modelled as `Int`. -/
abbrev Block := List Int

/-- `AudioRecorder` (approach-1 / approach-3 `main.py`): the in-memory
recorder state.  The live `sounddevice` stream handle is not modelled;
only the fields that determine the results of `stop`, `_callback` and
`buffer_samples` are. -/
structure AudioRecorder where
  sample_rate : ℕ
  channels : ℕ
  is_recording : Bool
  frames : List Block
  deriving Repr, DecidableEq

/-- `np.concatenate(self._frames, axis=0)`: the drain step of
`AudioRecorder.stop` that materializes the buffered blocks into one
contiguous sample sequence. -/
def drainAll (frames : List Block) : Block := frames.flatten

/-- `AudioRecorder._callback`: `if self.is_recording:
self._frames.append(indata.copy())` — the producer-side append, guarded
by the `is_recording` flag. -/
def AudioRecorder.callback (r : AudioRecorder) (indata : Block) : AudioRecorder :=
  if r.is_recording then { r with frames := r.frames ++ [indata] } else r

/-- `buffer_samples` property: `sum(len(f) for f in self._frames)`. -/
def AudioRecorder.buffer_samples (r : AudioRecorder) : ℕ :=
  (r.frames.map List.length).sum

/-- The materialized clip: the WAV file written by
`sf.write(wav_path, audio_data, self.sample_rate, subtype="PCM_16")`
holds exactly the concatenated samples at the recorder's sample rate. -/
structure AudioClip where
  samples : Block
  sample_rate : ℕ
  deriving Repr, DecidableEq

/-- Duration of a clip in seconds: sample count / sample rate
(`len(audio_data) / self.sample_rate`), as an exact rational. -/
def AudioClip.duration (c : AudioClip) : ℚ :=
  (c.samples.length : ℚ) / c.sample_rate

/-- `AudioRecorder.stop` (approach-1 `main.py` lines 145–166, identical
logic in approach-3 lines 257–274).  The Python method also clears
`is_recording` and tears the stream down; neither affects the returned
value.  It returns `None` when no frames were collected, then computes
`duration = len(audio_data) / self.sample_rate` and returns `None` when
`duration < 0.5`; otherwise it writes the concatenated samples to a WAV
file and returns it (modelled as the `AudioClip`). -/
def AudioRecorder.stop (r : AudioRecorder) : Option AudioClip :=
  if r.frames = [] then none
  else if ((drainAll r.frames).length : ℚ) / r.sample_rate < 1/2 then none
  else some ⟨drainAll r.frames, r.sample_rate⟩

/-- Hotkey identifiers (`pynput` key codes), abstracted as naturals. -/
abbrev Key := ℕ

/-- A keyboard event delivered to the `pynput` listener callbacks. -/
inductive KeyEvent
  | press (k : Key)
  | release (k : Key)
  deriving Repr, DecidableEq

/-- Controller state inside `main()`: the `recording` flag (all reads and
writes of which happen under `threading.Lock`), plus instrumentation
counting how many `_do_start_recording` / `_do_process_recording` worker
threads were spawned.  Each start worker makes exactly one
`recorder.start()` call, so `startCalls` counts `CaptureSession.start`
invocations. -/
structure ControllerState where
  recording : Bool
  startCalls : ℕ
  stopCalls : ℕ
  deriving Repr, DecidableEq

/-- `on_press` (approach-1 `main.py` lines 351–359; identical in
approach-3 lines 467–475 and approach-4 lines 511–519): non-target keys
are ignored; under the lock, a press while `recording` is already set is
a no-op, otherwise the flag is set and a `_do_start_recording` worker is
spawned.  The lock makes the check-and-set atomic, so the handler is one
atomic step of the model. -/
def on_press (target : Key) (s : ControllerState) (k : Key) : ControllerState :=
  if k ≠ target then s
  else if s.recording then s
  else { s with recording := true, startCalls := s.startCalls + 1 }

/-- `on_release` (approach-1 `main.py` lines 361–369): non-target keys
are ignored; under the lock, a release while not recording is a no-op,
otherwise the flag is cleared and a `_do_process_recording` worker is
spawned. -/
def on_release (target : Key) (s : ControllerState) (k : Key) : ControllerState :=
  if k ≠ target then s
  else if s.recording then { s with recording := false, stopCalls := s.stopCalls + 1 }
  else s

/-- One listener callback dispatch. -/
def stepEvent (target : Key) (s : ControllerState) : KeyEvent → ControllerState
  | .press k => on_press target s k
  | .release k => on_release target s k

/-- Run a sequence of key events through the listener callbacks.  The
lock serializes the guarded sections, so interleaved handlers are
modelled as a sequence of atomic steps. -/
def runEvents (target : Key) (s : ControllerState) (es : List KeyEvent) : ControllerState :=
  es.foldl (stepEvent target) s

theorem length_drainAll (frames : List Block) :
    (drainAll frames).length = (frames.map List.length).sum :=
  List.length_flatten frames

theorem runEvents_of_recording (target : Key) (es : List KeyEvent) :
    ∀ s : ControllerState, s.recording = true → KeyEvent.release target ∉ es →
      (runEvents target s es).startCalls = s.startCalls ∧
      (runEvents target s es).recording = true := by
  induction es with
  | nil => intro s h _; exact ⟨rfl, h⟩
  | cons e es ih =>
    intro s h hne
    have hmem : KeyEvent.release target ∉ es := fun hm => hne (List.mem_cons_of_mem _ hm)
    cases e with
    | press k =>
      have hstep : stepEvent target s (.press k) = s := by
        simp [stepEvent, on_press, h]
      rw [runEvents, List.foldl_cons, hstep]
      exact ih s h hmem
    | release k =>
      have hk : k ≠ target := by
        intro hkt
        exact hne (by simp [hkt])
      have hstep : stepEvent target s (.release k) = s := by
        simp [stepEvent, on_release, hk]
      rw [runEvents, List.foldl_cons, hstep]
      exact ih s h hmem

/-- C1: starting from a non-recording state, a press of the target key
spawns exactly one start worker (one `CaptureSession.start` call), and
any further events containing no release of the target key — in
particular any number of further presses of the target key — leave the
start-call count unchanged: the mutex-guarded `recording` flag makes the
second press a no-op. -/
theorem C1_guard_single_start (target : Key) (s : ControllerState) (es : List KeyEvent)
    (hidle : s.recording = false) (hnr : KeyEvent.release target ∉ es) :
    (runEvents target s (KeyEvent.press target :: es)).startCalls = s.startCalls + 1 ∧
    (runEvents target s (KeyEvent.press target :: es)).recording = true := by
  have hstep : stepEvent target s (.press target) =
      { s with recording := true, startCalls := s.startCalls + 1 } := by
    simp only [stepEvent, on_press]
    rw [if_neg (by simp), if_neg (by simp [hidle])]
  rw [runEvents, List.foldl_cons, hstep]
  exact runEvents_of_recording target es _ rfl hnr

/-- Witness for C1: two rapid presses of F9 (key 9) with no intervening
release, from idle, yield exactly one start call. -/
theorem C1_guard_single_start_witness :
    (runEvents 9 ⟨false, 0, 0⟩ [KeyEvent.press 9, KeyEvent.press 9]).startCalls = 0 + 1 ∧
    (runEvents 9 ⟨false, 0, 0⟩ [KeyEvent.press 9, KeyEvent.press 9]).recording = true :=
  C1_guard_single_start 9 ⟨false, 0, 0⟩ [KeyEvent.press 9] rfl (by decide)

/-- C2: with a positive sample rate, `stop` on under half a second of
accumulated audio returns the discard marker `none`; `stop` on at least
half a second returns a clip whose duration is exactly the total sample
count divided by the sample rate. -/
theorem C2_stop_duration_threshold (r : AudioRecorder) (h : 0 < r.sample_rate) :
    ((r.buffer_samples : ℚ) / r.sample_rate < 1/2 → r.stop = none) ∧
    (1/2 ≤ (r.buffer_samples : ℚ) / r.sample_rate →
      ∃ c, r.stop = some c ∧ c.duration = (r.buffer_samples : ℚ) / r.sample_rate) := by
  have hbuf : ((drainAll r.frames).length : ℚ) = (r.buffer_samples : ℚ) := by
    exact_mod_cast congrArg (Nat.cast (R := ℚ)) (length_drainAll r.frames)
  constructor
  · intro hlt
    unfold AudioRecorder.stop
    split
    · rfl
    · rw [if_pos]
      rw [hbuf]
      exact hlt
  · intro hge
    by_cases hnil : r.frames = []
    · exfalso
      have hzero : (r.buffer_samples : ℚ) = 0 := by
        simp [AudioRecorder.buffer_samples, hnil]
      rw [hzero] at hge
      simp at hge
      norm_num at hge
    · refine ⟨⟨drainAll r.frames, r.sample_rate⟩, ?_, ?_⟩
      · unfold AudioRecorder.stop
        rw [if_neg hnil, if_neg]
        rw [hbuf]
        exact not_lt.mpr hge
      · simp only [AudioClip.duration]
        rw [hbuf]

/-- Witness for C2: a one-sample recording at 4 Hz (0.25 s) is
discarded; a one-sample recording at 2 Hz (0.5 s) yields a clip of
duration 1/2. -/
theorem C2_stop_duration_threshold_witness :
    AudioRecorder.stop ⟨4, 1, false, [[0]]⟩ = none ∧
    ∃ c, AudioRecorder.stop ⟨2, 1, false, [[0]]⟩ = some c ∧ c.duration = 1/2 := by
  constructor
  · exact (C2_stop_duration_threshold ⟨4, 1, false, [[0]]⟩ (by decide)).1
      (by norm_num [AudioRecorder.buffer_samples])
  · have h := (C2_stop_duration_threshold ⟨2, 1, false, [[0]]⟩ (by decide)).2
      (by norm_num [AudioRecorder.buffer_samples])
    simpa [AudioRecorder.buffer_samples] using h

/-- C4: draining the buffer concatenates the appended blocks: the drained
sample count is the sum of the appended block lengths; appending a block
extends the drained sequence on the right (append order is preserved, no
reordering or loss); the clip produced by `stop` carries exactly the
drained samples; and the capture callback appends the incoming block at
the end of the frame list while recording. -/
theorem C4_drain_preserves (frames : List Block) (block : Block) :
    (drainAll frames).length = (frames.map List.length).sum ∧
    drainAll (frames ++ [block]) = drainAll frames ++ block ∧
    (∀ (r : AudioRecorder) (c : AudioClip), r.stop = some c → c.samples = drainAll r.frames) ∧
    (∀ r : AudioRecorder, r.is_recording = true →
      (r.callback block).frames = r.frames ++ [block]) := by
  refine ⟨List.length_flatten frames, ?_, ?_, ?_⟩
  · simp [drainAll]
  · intro r c hstop
    unfold AudioRecorder.stop at hstop
    split at hstop
    · exact absurd hstop (by simp)
    · split at hstop
      · exact absurd hstop (by simp)
      · cases hstop
        rfl
  · intro r hrec
    simp [AudioRecorder.callback, hrec]

/-- Witness for C4: a concrete two-block recording at 2 Hz stops into the
clip `[5, 7]`, which is its drain; a callback on a recording recorder
appends its block. -/
theorem C4_drain_preserves_witness :
    AudioClip.samples ⟨[5, 7], 2⟩ = drainAll [[5], [7]] ∧
    (AudioRecorder.callback ⟨2, 1, true, []⟩ [9]).frames = [] ++ [[9]] := by
  constructor
  · refine (C4_drain_preserves [] []).2.2.1 ⟨2, 1, false, [[5], [7]]⟩ ⟨[5, 7], 2⟩ ?_
    unfold AudioRecorder.stop
    norm_num [drainAll]
    intro hcontra
    exact absurd hcontra (by simp)
  · exact (C4_drain_preserves [] [9]).2.2.2 ⟨2, 1, true, []⟩ rfl

/-- C10: stopping a recorder whose frame list is empty — one that was
never started, or was already stopped so that no frames were collected —
returns the discard marker `none`, the same marker as for a too-short
recording, and raises no error: the `if not self._frames` guard returns
before `np.concatenate` (which would fail on an empty list) is reached,
so the model's `stop` is total. -/
theorem C10_stop_never_started (rate ch : ℕ) (rec : Bool) :
    AudioRecorder.stop ⟨rate, ch, rec, []⟩ = none := by
  simp [AudioRecorder.stop]

/-- The fragment of Python regular-expression syntax exercised by the
repository's correction rules (`config["regex_rules"]`, default pattern
`"N8n|N 8 n"`): literal character sequences and ordered alternation.
Patterns are modelled as parsed syntax trees. -/
inductive Regex
  | lit (s : List Char)
  | alt (r₁ r₂ : Regex)
  deriving Repr, DecidableEq

/-- Character comparison, case-folded when `re.IGNORECASE` is in
effect (ASCII folding, which covers the repository's rules). -/
def charEq (icase : Bool) (a b : Char) : Bool :=
  if icase then a.toLower == b.toLower else a == b

/-- Does the literal `s` match at the front of `t`? -/
def litMatchesFront (icase : Bool) : List Char → List Char → Bool
  | [], _ => true
  | _ :: _, [] => false
  | a :: s, b :: t => charEq icase a b && litMatchesFront icase s t

/-- Length of the match of `r` at the front of `t`, if any.  Python
alternation is ordered: the left alternative is tried first. -/
def reMatchLen (icase : Bool) : Regex → List Char → Option ℕ
  | .lit s, t => if litMatchesFront icase s t then some s.length else none
  | .alt a b, t => (reMatchLen icase a t).orElse (fun _ => reMatchLen icase b t)

/-- `re.sub` worker over explicit fuel (one unit per scan position;
`t.length + 1` always suffices, see `reSub`): scan left to right, replace
the leftmost match and continue after it, advancing one character past a
zero-width match as Python 3.7+ does. -/
def reSubAux (icase : Bool) (r : Regex) (repl : List Char) : ℕ → List Char → List Char
  | 0, t => t
  | _ + 1, [] =>
    match reMatchLen icase r [] with
    | some _ => repl
    | none => []
  | fuel + 1, c :: cs =>
    match reMatchLen icase r (c :: cs) with
    | some 0 => repl ++ c :: reSubAux icase r repl fuel cs
    | some (k + 1) => repl ++ reSubAux icase r repl fuel (cs.drop k)
    | none => c :: reSubAux icase r repl fuel cs

/-- `re.sub(rule["pattern"], rule["replacement"], text, flags=flags)`:
replace every non-overlapping occurrence, leftmost first. -/
def reSub (icase : Bool) (r : Regex) (repl : List Char) (t : List Char) : List Char :=
  reSubAux icase r repl (t.length + 1) t

/-- Does `r` match anywhere in `t` (would `re.search` find a match)? -/
def containsMatch (icase : Bool) (r : Regex) : List Char → Bool
  | [] => (reMatchLen icase r []).isSome
  | c :: cs => (reMatchLen icase r (c :: cs)).isSome || containsMatch icase r cs

/-- One entry of `config["regex_rules"]`:
`{"pattern": …, "replacement": …, "flags": …}`, the pattern stored
parsed. -/
structure CorrectionRule where
  pattern : Regex
  replacement : List Char
  flags : String
  deriving Repr, DecidableEq

/-- Python's `needle in haystack` on strings: contiguous-substring
containment, here on character lists. -/
def listHasInfix (needle : List Char) : List Char → Bool
  | [] => litMatchesFront false needle []
  | c :: cs => litMatchesFront false needle (c :: cs) || listHasInfix needle cs

/-- `"IGNORECASE" in rule.get("flags", "").upper()` in
`apply_corrections`. -/
def CorrectionRule.ignorecase (rule : CorrectionRule) : Bool :=
  listHasInfix "IGNORECASE".toList (rule.flags.toList.map Char.toUpper)

/-- The whitespace stripped by Python `str.strip()` (the ASCII cases;
the repository's transcripts use no exotic Unicode spacing). -/
def isPySpace (c : Char) : Bool :=
  c == ' ' || c == '\t' || c == '\n' || c == '\r' || c == '\x0b' || c == '\x0c'

/-- `text.strip()`: drop leading and trailing whitespace. -/
def pyStrip (t : List Char) : List Char :=
  ((t.dropWhile isPySpace).reverse.dropWhile isPySpace).reverse

/-- `apply_corrections` (approach-1 `main.py` lines 205–213, identical in
approach-3/4): fold the rules in list order, each `re.sub` operating on
the output of the previous one, then `strip` the result. -/
def apply_corrections (text : List Char) (regex_rules : List CorrectionRule) : List Char :=
  pyStrip (regex_rules.foldl
    (fun t rule => reSub rule.ignorecase rule.pattern rule.replacement t) text)

theorem reSubAux_of_noMatch (icase : Bool) (r : Regex) (repl : List Char) :
    ∀ (t : List Char) (fuel : ℕ), containsMatch icase r t = false →
      reSubAux icase r repl fuel t = t := by
  intro t
  induction t with
  | nil =>
    intro fuel h
    cases fuel with
    | zero => rfl
    | succ n =>
      simp only [containsMatch] at h
      cases hm : reMatchLen icase r [] with
      | some k => rw [hm] at h; simp at h
      | none => simp [reSubAux, hm]
  | cons c cs ih =>
    intro fuel h
    simp only [containsMatch, Bool.or_eq_false_iff] at h
    obtain ⟨h1, h2⟩ := h
    cases fuel with
    | zero => rfl
    | succ n =>
      cases hm : reMatchLen icase r (c :: cs) with
      | some k => rw [hm] at h1; simp at h1
      | none =>
        simp only [reSubAux, hm]
        rw [ih n h2]

theorem reSub_of_noMatch (icase : Bool) (r : Regex) (repl : List Char) (t : List Char)
    (h : containsMatch icase r t = false) : reSub icase r repl t = t :=
  reSubAux_of_noMatch icase r repl t (t.length + 1) h

theorem foldl_rules_of_noMatch (rules : List CorrectionRule) :
    ∀ t : List Char,
      (∀ rule ∈ rules, containsMatch rule.ignorecase rule.pattern t = false) →
      rules.foldl (fun t rule => reSub rule.ignorecase rule.pattern rule.replacement t) t = t := by
  induction rules with
  | nil => intro t _; rfl
  | cons rule rest ih =>
    intro t h
    rw [List.foldl_cons, reSub_of_noMatch _ _ _ _ (h rule (List.mem_cons_self _ _))]
    exact ih t (fun r hr => h r (List.mem_cons_of_mem _ hr))

theorem dropWhile_eq_self_iff_head (p : Char → Bool) (l : List Char) :
    l.dropWhile p = l ↔ ∀ c ∈ l.head?, p c = false := by
  cases l with
  | nil => simp
  | cons a t =>
    simp only [List.head?_cons, Option.mem_def, Option.some.injEq]
    constructor
    · intro h c hc
      rw [← hc]
      by_contra hpa
      have hpa' : p a = true := by revert hpa; cases p a <;> simp
      rw [List.dropWhile_cons, if_pos hpa'] at h
      have hlen := congrArg List.length h
      have hle : (t.dropWhile p).length ≤ t.length := (List.dropWhile_sublist p).length_le
      simp at hlen
      omega
    · intro h
      have hpa : p a = false := h a rfl
      rw [List.dropWhile_cons, if_neg (by simp [hpa])]

theorem dropWhile_eq_self_of_isPrefix (p : Char → Bool) {w l : List Char}
    (hp : w <+: l) (hl : l.dropWhile p = l) : w.dropWhile p = w := by
  rw [dropWhile_eq_self_iff_head] at hl ⊢
  intro c hc
  apply hl
  cases w with
  | nil => simp at hc
  | cons a t =>
    obtain ⟨s, hs⟩ := hp
    rw [← hs]
    simpa using hc

theorem pyStrip_prefix_dropWhile (t : List Char) :
    pyStrip t <+: t.dropWhile isPySpace := by
  unfold pyStrip
  have h : ((t.dropWhile isPySpace).reverse.dropWhile isPySpace) <:+
      (t.dropWhile isPySpace).reverse := List.dropWhile_suffix _
  have h2 := List.reverse_prefix.mpr h
  simpa using h2

theorem pyStrip_idem (t : List Char) : pyStrip (pyStrip t) = pyStrip t := by
  have h1 : (pyStrip t).dropWhile isPySpace = pyStrip t :=
    dropWhile_eq_self_of_isPrefix _ (pyStrip_prefix_dropWhile t)
      (List.dropWhile_idempotent _ _)
  have h2 : (pyStrip t).reverse.dropWhile isPySpace = (pyStrip t).reverse := by
    unfold pyStrip
    simp only [List.reverse_reverse]
    exact List.dropWhile_idempotent _ _
  show (((pyStrip t).dropWhile isPySpace).reverse.dropWhile isPySpace).reverse = pyStrip t
  rw [h1, h2, List.reverse_reverse]

theorem mem_of_mem_pyStrip {x : Char} {l : List Char} (h : x ∈ pyStrip l) : x ∈ l := by
  unfold pyStrip at h
  rw [List.mem_reverse] at h
  have h2 := (List.dropWhile_sublist _).subset h
  rw [List.mem_reverse] at h2
  exact (List.dropWhile_sublist _).subset h2

/-- C5 counterexample: the rule set `[(a→b), (c→a)]` satisfies the
claim's side condition — neither rule's replacement matches that rule's
own pattern — yet `apply_corrections` is not idempotent on the input
`"c"`: one application yields `"a"` (rule 2), a second application
yields `"b"` (rule 1 now fires on the text rule 2 produced). -/
theorem C5_not_idempotent_counterexample :
    (containsMatch false (Regex.lit ['a']) ['b'] = false ∧
     containsMatch false (Regex.lit ['c']) ['a'] = false) ∧
    apply_corrections
        (apply_corrections ['c']
          [⟨Regex.lit ['a'], ['b'], ""⟩, ⟨Regex.lit ['c'], ['a'], ""⟩])
        [⟨Regex.lit ['a'], ['b'], ""⟩, ⟨Regex.lit ['c'], ['a'], ""⟩] ≠
      apply_corrections ['c']
        [⟨Regex.lit ['a'], ['b'], ""⟩, ⟨Regex.lit ['c'], ['a'], ""⟩] := by
  decide

/-- C5 (amended): `apply_corrections` is idempotent on every input whose
once-corrected result contains no match of any rule's pattern — in
particular whenever the rules cannot reintroduce, directly or across
rule boundaries, any rule's pattern into the text they produce. -/
theorem C5_apply_corrections_idem (rules : List CorrectionRule) (text : List Char)
    (h : ∀ rule ∈ rules, containsMatch rule.ignorecase rule.pattern
        (apply_corrections text rules) = false) :
    apply_corrections (apply_corrections text rules) rules =
      apply_corrections text rules := by
  conv_lhs => rw [apply_corrections]
  rw [foldl_rules_of_noMatch rules _ h]
  exact pyStrip_idem _

/-- Witness for C5 (amended): with the single rule `a→b`, correcting
`"a"` gives `"b"`, which contains no further match, and a second
application leaves it unchanged. -/
theorem C5_apply_corrections_idem_witness :
    apply_corrections
        (apply_corrections ['a'] [⟨Regex.lit ['a'], ['b'], ""⟩])
        [⟨Regex.lit ['a'], ['b'], ""⟩] =
      apply_corrections ['a'] [⟨Regex.lit ['a'], ['b'], ""⟩] :=
  C5_apply_corrections_idem [⟨Regex.lit ['a'], ['b'], ""⟩] ['a'] (by decide)

theorem reSubAux_single_char (x y : Char) :
    ∀ (t : List Char) (fuel : ℕ), t.length < fuel →
      reSubAux false (.lit [x]) [y] fuel t =
        t.map (fun z => if z = x then y else z) := by
  intro t
  induction t with
  | nil =>
    intro fuel hf
    cases fuel with
    | zero => omega
    | succ n => simp [reSubAux, reMatchLen, litMatchesFront]
  | cons c cs ih =>
    intro fuel hf
    cases fuel with
    | zero => simp at hf
    | succ n =>
      have hn : cs.length < n := by simpa using hf
      by_cases hx : c = x
      · have hm : reMatchLen false (.lit [x]) (c :: cs) = some 1 := by
          simp [reMatchLen, litMatchesFront, charEq, hx]
        simp only [reSubAux, hm, List.drop_zero, List.map_cons, if_pos hx]
        rw [ih n hn]
        rfl
      · have hm : reMatchLen false (.lit [x]) (c :: cs) = none := by
          simp [reMatchLen, litMatchesFront, charEq]
          intro hxc
          exact absurd hxc.symm hx
        simp only [reSubAux, hm, List.map_cons, if_neg hx]
        rw [ih n hn]

theorem reSub_single_char (x y : Char) (t : List Char) :
    reSub false (.lit [x]) [y] t = t.map (fun z => if z = x then y else z) :=
  reSubAux_single_char x y t (t.length + 1) (Nat.lt_succ_self _)

/-- C6: correction rules chain in list order, each operating on the
previous rule's output.  For the rules `[(a→b), (b→c)]` on a text that
does not already contain `b`, every occurrence of `a` ends up rewritten
to `c` (the whole result is the stripped pointwise `a→c` replacement),
and when `c ≠ b` the letter `b` does not occur in the result at all: no
occurrence is left at the intermediate stage `b`. -/
theorem C6_rules_chain (t : List Char) (a b c : Char)
    (hb : b ∉ t) (hcb : c ≠ b) :
    apply_corrections t [⟨Regex.lit [a], [b], ""⟩, ⟨Regex.lit [b], [c], ""⟩] =
      pyStrip (t.map (fun z => if z = a then c else z)) ∧
    b ∉ apply_corrections t [⟨Regex.lit [a], [b], ""⟩, ⟨Regex.lit [b], [c], ""⟩] := by
  have hic : ∀ p r, (CorrectionRule.mk p r "").ignorecase = false := fun p r => rfl
  have hfold : apply_corrections t [⟨Regex.lit [a], [b], ""⟩, ⟨Regex.lit [b], [c], ""⟩] =
      pyStrip (t.map (fun z => if z = a then c else z)) := by
    unfold apply_corrections
    rw [List.foldl_cons, List.foldl_cons, List.foldl_nil]
    simp only [hic]
    rw [reSub_single_char, reSub_single_char, List.map_map]
    congr 1
    apply List.map_congr_left
    intro z hz
    have hzb : z ≠ b := fun hzb => hb (hzb ▸ hz)
    by_cases hza : z = a
    · simp [Function.comp, hza]
    · simp [Function.comp, hza, hzb]
  refine ⟨hfold, ?_⟩
  rw [hfold]
  intro hmem
  have h2 := mem_of_mem_pyStrip hmem
  obtain ⟨z, hz, hzeq⟩ := List.mem_map.mp h2
  by_cases hza : z = a
  · rw [if_pos hza] at hzeq
    exact hcb hzeq
  · rw [if_neg hza] at hzeq
    exact hb (hzeq ▸ hz)

/-- Witness for C6: rules `[(A→B), (B→C)]` on `"Ax"` produce `"Cx"`,
with no `B` left behind. -/
theorem C6_rules_chain_witness :
    apply_corrections ['A', 'x']
        [⟨Regex.lit ['A'], ['B'], ""⟩, ⟨Regex.lit ['B'], ['C'], ""⟩] =
      pyStrip (['A', 'x'].map (fun z => if z = 'A' then 'C' else z)) ∧
    'B' ∉ apply_corrections ['A', 'x']
        [⟨Regex.lit ['A'], ['B'], ""⟩, ⟨Regex.lit ['B'], ['C'], ""⟩] :=
  C6_rules_chain ['A', 'x'] 'A' 'B' 'C' (by decide) (by decide)

/-- JSON values as returned by `response.json()`. -/
inductive Json
  | obj (fields : List (String × Json))
  | arr (elems : List Json)
  | str (s : String)
  | num (n : Int)
  | bool (b : Bool)
  | null

/-- A Python subscript: `v[key]` with a string key or `v[i]` with a
non-negative integer index (the code only indexes with `0`). -/
inductive PyKey
  | strKey (s : String)
  | intKey (n : ℕ)

/-- The Python exceptions relevant to the release worker's handlers. -/
inductive PyExc
  | httpErr (status : ℕ) (body : String)
  | timeoutErr
  | valueErr
  | keyErr
  | indexErr
  | typeErr
  | attrErr
  deriving Repr, DecidableEq

/-- Python subscripting `v[k]` on a JSON value: a dict indexes by its
string keys and raises `KeyError` when the key is absent — also for an
integer subscript, since JSON object keys are strings; a list indexes by
position, raising `IndexError` out of range and `TypeError` for a string
subscript; a string also indexes by position (yielding a one-character
string); subscripting any other value raises `TypeError`. -/
def pyGetItem : Json → PyKey → Except PyExc Json
  | .obj fields, .strKey s =>
    match fields.lookup s with
    | some v => .ok v
    | none => .error .keyErr
  | .obj _, .intKey _ => .error .keyErr
  | .arr es, .intKey n =>
    match es.get? n with
    | some v => .ok v
    | none => .error .indexErr
  | .arr _, .strKey _ => .error .typeErr
  | .str s, .intKey n =>
    match s.toList.get? n with
    | some ch => .ok (.str (String.mk [ch]))
    | none => .error .indexErr
  | .str _, .strKey _ => .error .typeErr
  | _, _ => .error .typeErr

/-- Chained subscripting, stopping at the first exception. -/
def getPath : Json → List PyKey → Except PyExc Json
  | j, [] => .ok j
  | j, k :: ks =>
    match pyGetItem j k with
    | .ok v => getPath v ks
    | .error e => .error e

/-- The extraction path
`result["candidates"][0]["content"]["parts"][0]["text"]` of the Gemini
`transcribe` (approach-4 `main.py` lines 325–333). -/
def geminiPath : List PyKey :=
  [.strKey "candidates", .intKey 0, .strKey "content", .strKey "parts",
   .intKey 0, .strKey "text"]

/-- The parse step of the Gemini `transcribe` after a 2xx response: the
subscript chain runs inside `try/except (KeyError, IndexError)`, which
re-raises as `ValueError` (the malformed-response signal); other
exceptions (`TypeError` from subscripting a wrong type) propagate
unchanged; `text.strip()` happens outside the `try`, so a non-string
leaf raises `AttributeError`, which also propagates. -/
def geminiExtract (result : Json) : Except PyExc String :=
  match getPath result geminiPath with
  | .ok (.str s) => .ok (String.mk (pyStrip s.toList))
  | .ok _ => .error .attrErr
  | .error .keyErr => .error .valueErr
  | .error .indexErr => .error .valueErr
  | .error e => .error e

/-- The outcome taxonomy of the spec (§3, §4.3), used to label the
distinct handler branches of `_do_process_recording`. -/
inductive FailureKind
  | unauthorized
  | rateLimited
  | timeout
  | malformedResponse
  | other
  deriving Repr, DecidableEq

/-- The Whisper variant's error handling (approach-1 `main.py` lines
324–338; approach-3's `{401: …, 429: …}.get(status, …)` at lines 436–443
is the same mapping): `except HTTPError` inspects only
`e.response.status_code` — the response body is never read — `401` is
reported as an invalid API key (Unauthorized), `429` as rate-limited,
and every other status falls to the generic `API 錯誤 (HTTP …)` branch;
`except Timeout` is the timeout branch; any other exception falls to the
generic branch. -/
def whisperClassify : PyExc → FailureKind
  | .httpErr status _ =>
    if status = 401 then .unauthorized
    else if status = 429 then .rateLimited
    else .other
  | .timeoutErr => .timeout
  | _ => .other

/-- The Gemini variant's error handling (approach-4 `main.py` lines
467–499): the message dict distinguishes `400` (malformed request —
generic), `401` (invalid API key) and `403` (API key lacks permission) —
both authorization failures — and `429` (rate limited); `except Timeout`
is the timeout branch, `except ValueError` the response-parse branch
(MalformedResponse), anything else generic. -/
def geminiClassify : PyExc → FailureKind
  | .httpErr status _ =>
    if status = 400 then .other
    else if status = 401 then .unauthorized
    else if status = 403 then .unauthorized
    else if status = 429 then .rateLimited
    else .other
  | .timeoutErr => .timeout
  | .valueErr => .malformedResponse
  | _ => .other

/-- C3 counterexample: in the form-upload (Whisper) variant, HTTP 403 is
not mapped to Unauthorized — approach-1's handler special-cases only 401
and 429, so 403 falls to the generic branch. -/
theorem C3_whisper_403_not_unauthorized :
    whisperClassify (.httpErr 403 "") = .other ∧
    whisperClassify (.httpErr 403 "") ≠ .unauthorized := by
  decide

/-- C3 (amended): outcome classification is deterministic and
independent of the response body in both variants; 401 maps to
Unauthorized in both, 403 maps to Unauthorized in the inline-payload
(Gemini) variant only — the form-upload (Whisper) variant sends it to
the generic Other branch; 429 maps to RateLimited; a network timeout of
the 30-second bound maps to Timeout; a parse failure (Gemini
`ValueError`) maps to MalformedResponse; every other non-2xx status maps
to Other. -/
theorem C3_status_mapping :
    (∀ status body, whisperClassify (.httpErr status body) =
      if status = 401 then .unauthorized
      else if status = 429 then .rateLimited
      else .other) ∧
    (∀ status body, geminiClassify (.httpErr status body) =
      if status = 401 ∨ status = 403 then .unauthorized
      else if status = 429 then .rateLimited
      else .other) ∧
    whisperClassify .timeoutErr = .timeout ∧
    geminiClassify .timeoutErr = .timeout ∧
    geminiClassify .valueErr = .malformedResponse ∧
    (∀ status b₁ b₂,
      whisperClassify (.httpErr status b₁) = whisperClassify (.httpErr status b₂) ∧
      geminiClassify (.httpErr status b₁) = geminiClassify (.httpErr status b₂)) := by
  refine ⟨fun status _ => rfl, ?_, rfl, rfl, rfl, fun status b₁ b₂ => ⟨rfl, rfl⟩⟩
  intro status _
  simp only [geminiClassify]
  by_cases h0 : status = 400 <;> by_cases h1 : status = 401 <;>
    by_cases h3 : status = 403 <;> by_cases h9 : status = 429 <;>
    simp [h0, h1, h3, h9]

/-- C7: whenever the Gemini extraction path is absent — a missing key
(`KeyError`) or an empty list (`IndexError`) at any level — `transcribe`
raises `ValueError`, which `_do_process_recording` classifies as the
response-parse failure (MalformedResponse); in particular no text, empty
or otherwise, is silently returned. -/
theorem C7_gemini_missing_path (result : Json)
    (h : getPath result geminiPath = .error .keyErr ∨
         getPath result geminiPath = .error .indexErr) :
    geminiExtract result = .error .valueErr ∧
    geminiClassify .valueErr = .malformedResponse ∧
    ∀ s, geminiExtract result ≠ .ok s := by
  have hext : geminiExtract result = .error .valueErr := by
    unfold geminiExtract
    rcases h with h | h
    · rw [h]
    · rw [h]
  exact ⟨hext, rfl, fun s hs => by rw [hext] at hs; cases hs⟩

/-- Witness for C7: a response without a `candidates` key fails with
`ValueError` and yields no text. -/
theorem C7_gemini_missing_path_witness :
    geminiExtract (.obj []) = .error .valueErr ∧
    geminiClassify .valueErr = .malformedResponse ∧
    ∀ s, geminiExtract (.obj []) ≠ .ok s :=
  C7_gemini_missing_path (.obj []) (Or.inl rfl)

/-- Tray statuses (`TRAY_IDLE` / `TRAY_RECORDING` / `TRAY_PROCESSING` /
`TRAY_ERROR` in approach-3 `main.py`). -/
inductive TrayState
  | idle
  | recording
  | processing
  | error
  deriving Repr, DecidableEq

/-- Observable presentation effects of the workers, in program order:
`tray.set_state(…)` calls and the fixed `time.sleep(2)` error-display
delay.  The beep cue loop of `_do_start_recording` performs no status
transition (it is a UX cue only, per §4.5 of the spec) and is not
tracked. -/
inductive UIEvent
  | setState (s : TrayState)
  | sleep (seconds : ℕ)
  deriving Repr, DecidableEq

/-- The network-level outcome of the single `requests.post` call: a 2xx
response with a JSON body, a non-2xx response (which
`raise_for_status()` turns into `HTTPError`), or exceeding the 30 s
bound (`requests.exceptions.Timeout`). -/
inductive NetOutcome
  | success (body : Json)
  | httpError (status : ℕ) (body : String)
  | timedOut

/-- `transcribe` of the Whisper variant (approach-3 `main.py` lines
285–301): `requests.post(…, timeout=30)`, `raise_for_status()`, then
`response.json()["text"]`.  A missing `"text"` key raises `KeyError`; a
non-string value would be returned as-is and only fail later inside
`re.sub`, modelled here as the `TypeError` that raises (a path no claim
exercises). -/
def whisperTranscribe (net : NetOutcome) : Except PyExc String :=
  match net with
  | .success j =>
    match pyGetItem j (.strKey "text") with
    | .ok (.str s) => .ok s
    | .ok _ => .error .typeErr
    | .error e => .error e
  | .httpError status body => .error (.httpErr status body)
  | .timedOut => .error .timeoutErr

/-- `{401: "API Key 無效", 429: "請求過於頻繁"}.get(status, f"API 錯誤 HTTP
{status}")` in approach-3's HTTP-error handler. -/
def whisperHttpMsg (status : ℕ) : String :=
  if status = 401 then "API Key 無效"
  else if status = 429 then "請求過於頻繁"
  else "API 錯誤 HTTP " ++ toString status

/-- The observable outcome of one `_do_process_recording` run. -/
structure ProcResult where
  events : List UIEvent
  transcribeCalled : Bool
  pasted : Option (List Char)
  notice : Option String
  deriving Repr, DecidableEq

/-- `_do_process_recording` (approach-3 `main.py` lines 424–465),
parametrized by the network outcome the single provider call would
produce.  `recorder.stop()` runs first; on the discard marker the tray
goes straight to Idle with the too-short notice and no request is made.
Otherwise the tray shows Processing, the provider is called once, every
failure branch shows Error for a fixed 2 s delay and then Idle without
pasting, and on success the corrected text is pasted unless empty. -/
def do_process_recording (r : AudioRecorder) (net : NetOutcome)
    (rules : List CorrectionRule) : ProcResult :=
  match r.stop with
  | none =>
    { events := [.setState .idle], transcribeCalled := false,
      pasted := none, notice := some "錄音時間太短，已忽略" }
  | some _ =>
    match whisperTranscribe net with
    | .error (.httpErr status _) =>
      { events := [.setState .processing, .setState .error, .sleep 2, .setState .idle],
        transcribeCalled := true, pasted := none, notice := some (whisperHttpMsg status) }
    | .error .timeoutErr =>
      { events := [.setState .processing, .setState .error, .sleep 2, .setState .idle],
        transcribeCalled := true, pasted := none, notice := some "網路逾時" }
    | .error _ =>
      { events := [.setState .processing, .setState .error, .sleep 2, .setState .idle],
        transcribeCalled := true, pasted := none, notice := some "發生錯誤" }
    | .ok raw =>
      let final := apply_corrections raw.toList rules
      if final = [] then
        { events := [.setState .processing, .setState .idle],
          transcribeCalled := true, pasted := none, notice := some "辨識結果為空" }
      else
        { events := [.setState .processing, .setState .idle],
          transcribeCalled := true, pasted := some final, notice := none }

/-- One full utterance's status trace: `_do_start_recording` sets
`TRAY_RECORDING` first, then the release worker's events follow. -/
def utteranceEvents (r : AudioRecorder) (net : NetOutcome)
    (rules : List CorrectionRule) : List UIEvent :=
  UIEvent.setState .recording :: (do_process_recording r net rules).events

theorem buffer_cast_eq (r : AudioRecorder) :
    ((drainAll r.frames).length : ℚ) = (r.buffer_samples : ℚ) := by
  exact_mod_cast congrArg (Nat.cast (R := ℚ)) (length_drainAll r.frames)

theorem stop_eq_none_of_short (r : AudioRecorder)
    (h : 2 * r.buffer_samples < r.sample_rate) : r.stop = none := by
  unfold AudioRecorder.stop
  split
  · rfl
  · rw [if_pos]
    rw [buffer_cast_eq]
    have hrate : 0 < r.sample_rate := by omega
    have hrateQ : (0 : ℚ) < r.sample_rate := by exact_mod_cast hrate
    rw [div_lt_div_iff₀ hrateQ (by norm_num : (0 : ℚ) < 2)]
    have h2 : r.buffer_samples * 2 < 1 * r.sample_rate := by omega
    exact_mod_cast h2

theorem stop_eq_some_of_long (r : AudioRecorder)
    (h : r.sample_rate ≤ 2 * r.buffer_samples) (hrate : 0 < r.sample_rate) :
    r.stop = some ⟨drainAll r.frames, r.sample_rate⟩ := by
  have hne : r.frames ≠ [] := by
    intro hnil
    have hzero : r.buffer_samples = 0 := by simp [AudioRecorder.buffer_samples, hnil]
    omega
  unfold AudioRecorder.stop
  rw [if_neg hne, if_neg]
  rw [buffer_cast_eq, not_lt]
  have hrateQ : (0 : ℚ) < r.sample_rate := by exact_mod_cast hrate
  rw [div_le_div_iff₀ (by norm_num : (0 : ℚ) < 2) hrateQ]
  have h2 : 1 * r.sample_rate ≤ r.buffer_samples * 2 := by omega
  exact_mod_cast h2

/-- C8: when the captured audio is under the 0.5 s minimum, the release
worker makes no network call and the status goes directly from Recording
to Idle with the too-short notice — no Processing, no Error, no paste —
whatever the network would have answered. -/
theorem C8_too_short_no_network (r : AudioRecorder) (net : NetOutcome)
    (rules : List CorrectionRule) (h : 2 * r.buffer_samples < r.sample_rate) :
    (do_process_recording r net rules).transcribeCalled = false ∧
    utteranceEvents r net rules = [.setState .recording, .setState .idle] ∧
    (do_process_recording r net rules).notice = some "錄音時間太短，已忽略" ∧
    (do_process_recording r net rules).pasted = none := by
  have hstop := stop_eq_none_of_short r h
  unfold utteranceEvents do_process_recording
  rw [hstop]
  exact ⟨rfl, rfl, rfl, rfl⟩

/-- Witness for C8: one sample at 4 Hz (0.25 s) is too short — the
worker reports the too-short notice, makes no request and goes straight
to Idle. -/
theorem C8_too_short_no_network_witness :
    (do_process_recording ⟨4, 1, false, [[0]]⟩ .timedOut []).transcribeCalled = false ∧
    utteranceEvents ⟨4, 1, false, [[0]]⟩ .timedOut [] =
      [.setState .recording, .setState .idle] ∧
    (do_process_recording ⟨4, 1, false, [[0]]⟩ .timedOut []).notice =
      some "錄音時間太短，已忽略" ∧
    (do_process_recording ⟨4, 1, false, [[0]]⟩ .timedOut []).pasted = none :=
  C8_too_short_no_network ⟨4, 1, false, [[0]]⟩ .timedOut [] (by decide)

/-- C9: when the provider call exceeds its 30 s bound, the status passes
through Recording → Processing → Error → (fixed 2 s display delay) →
Idle — the Error state auto-recovers, it is not sticky — and no
clipboard paste occurs. -/
theorem C9_timeout_trace (r : AudioRecorder) (rules : List CorrectionRule)
    (hlong : r.sample_rate ≤ 2 * r.buffer_samples) (hrate : 0 < r.sample_rate) :
    utteranceEvents r .timedOut rules =
      [.setState .recording, .setState .processing, .setState .error,
       .sleep 2, .setState .idle] ∧
    (do_process_recording r .timedOut rules).pasted = none ∧
    (do_process_recording r .timedOut rules).notice = some "網路逾時" := by
  have hstop := stop_eq_some_of_long r hlong hrate
  unfold utteranceEvents do_process_recording
  rw [hstop]
  exact ⟨rfl, rfl, rfl⟩

/-- Witness for C9: a 0.5 s recording whose provider call times out
walks Recording → Processing → Error → sleep 2 → Idle and pastes
nothing. -/
theorem C9_timeout_trace_witness :
    utteranceEvents ⟨2, 1, false, [[0]]⟩ .timedOut [] =
      [.setState .recording, .setState .processing, .setState .error,
       .sleep 2, .setState .idle] ∧
    (do_process_recording ⟨2, 1, false, [[0]]⟩ .timedOut []).pasted = none ∧
    (do_process_recording ⟨2, 1, false, [[0]]⟩ .timedOut []).notice = some "網路逾時" :=
  C9_timeout_trace ⟨2, 1, false, [[0]]⟩ [] (by decide) (by decide)

end WWhisper
